import Mathlib

/-!
Verification of the user-credential-processor repository.

Bytes are modelled as `Nat` values together with `< 256` bounds where the
source manipulates Node `Buffer`s.  Hex rendering follows
`Buffer.prototype.toString("hex")` (lowercase) and hex parsing follows the
lenient semantics of `Buffer.from(string, "hex")`, which decodes complete
hex pairs until the first invalid character and silently drops the rest.
-/

/-- Lowercase hex digit for a value below 16, as produced by
Buffer.toString("hex"). -/
def hexDigitChar (n : Nat) : Char :=
  if n < 10 then Char.ofNat (48 + n) else Char.ofNat (87 + n)

/-- Value of a hex digit character; accepts 0-9, a-f and A-F exactly as the
Node hex decoder does. -/
def hexDigitVal (c : Char) : Option Nat :=
  if 48 ≤ c.toNat ∧ c.toNat ≤ 57 then some (c.toNat - 48)
  else if 97 ≤ c.toNat ∧ c.toNat ≤ 102 then some (c.toNat - 87)
  else if 65 ≤ c.toNat ∧ c.toNat ≤ 70 then some (c.toNat - 55)
  else none

/-- Rendering of a byte list as a lowercase hex string, the behaviour of
combined.toString("hex") on the encoded record. -/
def hexOfBytes (bs : List Nat) : String :=
  String.mk (bs.flatMap fun b => [hexDigitChar (b / 16), hexDigitChar (b % 16)])

/-- Lenient hex decoding over characters: complete valid pairs are decoded
until the first invalid character or incomplete pair, everything after is
silently ignored.  This is the behaviour of Buffer.from(s, "hex"). -/
def parseHexPairs : List Char → List Nat
  | c1 :: c2 :: rest =>
    match hexDigitVal c1, hexDigitVal c2 with
    | some hi, some lo => (16 * hi + lo) :: parseHexPairs rest
    | _, _ => []
  | _ => []

/-- Model of Buffer.from(stored, "hex"). -/
def bytesOfHexLenient (s : String) : List Nat :=
  parseHexPairs s.data

/-- Strict hex-validity of a string: even length and every character a hex
digit.  This is the notion of "valid hex" used by the specification when it
speaks of rejecting non-hex records. -/
def isValidHex (s : String) : Bool :=
  s.data.length % 2 == 0 && s.data.all fun c => (hexDigitVal c).isSome

/-- Big-endian unsigned 32-bit read at a byte offset, the behaviour of
buffer.readUInt32BE(off) when off + 4 is within bounds (the models guard
the out-of-range throw separately, before using this value). -/
def readUInt32BE (l : List Nat) (off : Nat) : Nat :=
  match l.drop off with
  | b0 :: b1 :: b2 :: b3 :: _ => ((b0 * 256 + b1) * 256 + b2) * 256 + b3
  | _ => 0

/-- Big-endian 4-byte encoding of a value below 2^32, the bytes written by
buffer.writeUInt32BE(v, off). -/
def uint32be (v : Nat) : List Nat :=
  [v / 16777216 % 256, v / 65536 % 256, v / 256 % 256, v % 256]

/-- The combined record layout produced by hash in both KDF processors:
uint32be(salt.length) at offset 0, uint32be(c) at offset 4, then the salt,
then the derived key, rendered as lowercase hex. -/
def encodeRecord (salt : List Nat) (c : Nat) (key : List Nat) : String :=
  hexOfBytes (uint32be salt.length ++ (uint32be c ++ (salt ++ key)))

/-- Error outcomes of the modelled operations.  The source has no error
classes of its own: these constructors name the concrete Node/JS errors the
code lets escape (out-of-range buffer reads and writes, crypto argument
validation failures, a TypeError from reading a property of undefined, and
the two explicit factory throws). -/
inductive JsError
  | outOfRangeRead
  | outOfRangeWrite
  | invalidIterations
  | invalidKeylen
  | callbackNotFunction
  | optionsNotObject
  | typeErrorUndefined
  | moreThanOneAlgorithm
  | unknownAlgorithm
deriving DecidableEq

/-- Fully resolved PBKDF2 option record (PBKDF2.js defaults object shape). -/
structure Pbkdf2Options where
  hashBytes : Nat
  saltBytes : Nat
  digest : String
  iterations : Nat
deriving DecidableEq

/-- Module-level defaults of PBKDF2.js (lines 3-31). -/
def pbkdf2Defaults : Pbkdf2Options :=
  ⟨32, 16, "whirlpool", 777777⟩

/-- A partial PBKDF2 options object as a caller may pass it: a field is
none when the key is absent from the object. -/
structure Pbkdf2Overrides where
  hashBytes : Option Nat := none
  saltBytes : Option Nat := none
  digest : Option String := none
  iterations : Option Nat := none
deriving DecidableEq

/-- Object.assign(Object.assign(\x7b\x7d, base), o): keys present in o
replace, absent keys keep the base value (shallow merge). -/
def pbkdf2Assign (base : Pbkdf2Options) (o : Pbkdf2Overrides) : Pbkdf2Options :=
  ⟨o.hashBytes.getD base.hashBytes, o.saltBytes.getD base.saltBytes,
   o.digest.getD base.digest, o.iterations.getD base.iterations⟩

/-- Options stored by the PBKDF2Processor constructor (PBKDF2.js lines
43-49): the supplied object merged over the module defaults, or the
defaults when no object is supplied. -/
def pbkdf2CtorOptions (ctor : Option Pbkdf2Overrides) : Pbkdf2Options :=
  match ctor with
  | some o => pbkdf2Assign pbkdf2Defaults o
  | none => pbkdf2Defaults

/-- Options effective inside hash (PBKDF2.js lines 67-70): when a per-call
options object is given it is merged over the module defaults (the
constructor options are not consulted); otherwise this.options is used. -/
def pbkdf2EffectiveOptions (ctor perCall : Option Pbkdf2Overrides) : Pbkdf2Options :=
  match perCall with
  | some o => pbkdf2Assign pbkdf2Defaults o
  | none => pbkdf2CtorOptions ctor

/-- Abstract external KDF primitive standing for crypto.pbkdf2: password,
salt, iterations, requested key length, digest name, to the derived key
bytes.  The primitive itself lives in the Node crypto module, outside this
repository, so it is a parameter of the model. -/
def KdfFn : Type :=
  String → List Nat → Nat → Nat → String → List Nat

/-- Model of PBKDF2Processor.hash at fixed effective options and an
explicit salt (the fresh random bytes from crypto.randomBytes).  The guards
reproduce the synchronous argument validation of crypto.pbkdf2 (iterations
a positive int32, keylen an int32) and of writeUInt32BE (value below 2^32);
outside the guards the call back receives the derived key and resolves the
combined record of PBKDF2.js lines 109-124 rendered as hex. -/
def pbkdf2Hash (kdf : KdfFn) (password : String) (salt : List Nat)
    (opts : Pbkdf2Options) : Except JsError String :=
  if opts.iterations < 1 ∨ 2147483647 < opts.iterations then
    Except.error JsError.invalidIterations
  else if 2147483647 < opts.hashBytes then
    Except.error JsError.invalidKeylen
  else if 4294967295 < salt.length then
    Except.error JsError.outOfRangeWrite
  else
    Except.ok (encodeRecord salt opts.iterations
      (kdf password salt opts.iterations opts.hashBytes opts.digest))

/-- Model of PBKDF2Processor.compare (PBKDF2.js lines 151-183).  The stored
string is parsed with Buffer.from(stored, "hex") (lenient); readUInt32BE
throws when the buffer is too short; the salt slice and the trailing
binary-string read clamp silently; re-derivation uses the record iteration
count, the remaining length as keylen, and always the module default
digest.  The guards reproduce crypto.pbkdf2 argument validation; a
mismatch of the re-derived key resolves false. -/
def pbkdf2Compare (kdf : KdfFn) (incoming stored : String) : Except JsError Bool :=
  let buffer := bytesOfHexLenient stored
  if buffer.length < 4 then Except.error JsError.outOfRangeRead
  else
    let saltBytes := readUInt32BE buffer 0
    let salt := (buffer.drop 8).take saltBytes
    if buffer.length < 8 then Except.error JsError.outOfRangeRead
    else
      let hashBytes : Int := (buffer.length : Int) - (saltBytes : Int) - 8
      let iterations := readUInt32BE buffer 4
      let hash := buffer.drop (saltBytes + 8)
      if iterations < 1 ∨ 2147483647 < iterations then
        Except.error JsError.invalidIterations
      else if hashBytes < 0 ∨ 2147483647 < hashBytes then
        Except.error JsError.invalidKeylen
      else
        Except.ok (kdf incoming salt iterations hashBytes.toNat pbkdf2Defaults.digest == hash)

/-- Fully resolved scrypt option record (scrypt.js defaults object shape). -/
structure ScryptOptions where
  keyLength : Nat
  saltBytes : Nat
  cost : Nat
  blockSize : Nat
  parallelization : Nat
  maxmem : Nat
deriving DecidableEq

/-- Module-level defaults of scrypt.js (lines 3-33).  Note there is no
digest key: reading defaults.digest in compare yields undefined. -/
def scryptDefaults : ScryptOptions :=
  ⟨64, 16, 16384, 8, 1, 33554432⟩

/-- A partial scrypt options object: none marks an absent key. -/
structure ScryptOverrides where
  keyLength : Option Nat := none
  saltBytes : Option Nat := none
  cost : Option Nat := none
  blockSize : Option Nat := none
  parallelization : Option Nat := none
  maxmem : Option Nat := none
deriving DecidableEq

/-- Shallow merge of a partial scrypt options object over a base. -/
def scryptAssign (base : ScryptOptions) (o : ScryptOverrides) : ScryptOptions :=
  ⟨o.keyLength.getD base.keyLength, o.saltBytes.getD base.saltBytes,
   o.cost.getD base.cost, o.blockSize.getD base.blockSize,
   o.parallelization.getD base.parallelization, o.maxmem.getD base.maxmem⟩

/-- Options stored by the ScryptProcessor constructor (scrypt.js 41-48). -/
def scryptCtorOptions (ctor : Option ScryptOverrides) : ScryptOptions :=
  match ctor with
  | some o => scryptAssign scryptDefaults o
  | none => scryptDefaults

/-- Options effective inside scrypt hash (scrypt.js lines 67-70): a
per-call object is merged over the module defaults, ignoring the
constructor options, exactly as in the PBKDF2 processor. -/
def scryptEffectiveOptions (ctor perCall : Option ScryptOverrides) : ScryptOptions :=
  match perCall with
  | some o => scryptAssign scryptDefaults o
  | none => scryptCtorOptions ctor

/-- The options object literal the source builds for crypto.scrypt in hash
(scrypt.js lines 102-106): cost, blockSize, parallelization and nothing
else - in particular maxmem is not included. -/
structure ScryptCallOptions where
  cost : Nat
  blockSize : Nat
  parallelization : Nat
deriving DecidableEq

/-- A JavaScript argument slot as crypto.scrypt sees it: undefined, a
number, a string, an options object, or a function value. -/
inductive JsArg
  | undefined
  | num (n : Int)
  | str (s : String)
  | obj (o : ScryptCallOptions)
  | func
deriving DecidableEq

/-- Abstract external scrypt primitive standing for the key derivation of
crypto.scrypt once its arguments have been validated: password, salt,
key length, cost options, to the derived key bytes. -/
def ScryptPrim : Type :=
  String → List Nat → Nat → ScryptCallOptions → List Nat

/-- Argument normalization and validation of Node crypto.scrypt for the
keylen, options and callback slots.  When the callback slot is undefined
the options slot is shifted into the callback position and the default
cost options (N 16384, r 8, p 1) are used; keylen must be an int32; the
options slot must then be an object; the callback must be a function.  A
sixth positional argument, as passed by scrypt.js compare, is ignored by
the five-parameter signature and plays no part. -/
def nodeScryptNormalize (keylenArg optionsArg callbackArg : JsArg) :
    Except JsError (Nat × ScryptCallOptions) :=
  let shifted : JsArg × JsArg :=
    match callbackArg with
    | JsArg.undefined => (JsArg.undefined, optionsArg)
    | cb => (optionsArg, cb)
  match keylenArg with
  | JsArg.num k =>
    if k < 0 ∨ 2147483647 < k then Except.error JsError.invalidKeylen
    else
      match shifted.1 with
      | JsArg.undefined =>
        match shifted.2 with
        | JsArg.func => Except.ok (k.toNat, ⟨16384, 8, 1⟩)
        | _ => Except.error JsError.callbackNotFunction
      | JsArg.obj o =>
        match shifted.2 with
        | JsArg.func => Except.ok (k.toNat, o)
        | _ => Except.error JsError.callbackNotFunction
      | _ => Except.error JsError.optionsNotObject
  | _ => Except.error JsError.invalidKeylen

/-- Model of ScryptProcessor.hash at fixed effective options and an
explicit salt (scrypt.js lines 63-143).  The crypto.scrypt invocation
passes keyLength in the keylen slot, the literal cost/blockSize/
parallelization object in the options slot and a function callback; the
callback writes salt.length at offset 0 and keyLength at offset 4 of the
combined buffer and resolves its hex rendering. -/
def scryptHash (prim : ScryptPrim) (password : String) (salt : List Nat)
    (opts : ScryptOptions) : Except JsError String :=
  match nodeScryptNormalize (JsArg.num (opts.keyLength : Int))
      (JsArg.obj ⟨opts.cost, opts.blockSize, opts.parallelization⟩) JsArg.func with
  | Except.error e => Except.error e
  | Except.ok kn =>
    if 4294967295 < salt.length then Except.error JsError.outOfRangeWrite
    else Except.ok (encodeRecord salt opts.keyLength (prim password salt kn.1 kn.2))

/-- The three argument values scrypt.js compare (lines 179-192) places in
the keylen, options and callback slots of crypto.scrypt: the uint32 read
back from offset 4 of the record, the computed remaining length hashBytes
(a number, not an options object), and defaults.digest, which is undefined
because the scrypt defaults object has no digest key.  Errors are the
readUInt32BE out-of-range throws that occur before the call. -/
def scryptCompareScryptArgs (stored : String) : Except JsError (JsArg × JsArg × JsArg) :=
  let buffer := bytesOfHexLenient stored
  if buffer.length < 4 then Except.error JsError.outOfRangeRead
  else
    let saltBytes := readUInt32BE buffer 0
    if buffer.length < 8 then Except.error JsError.outOfRangeRead
    else
      Except.ok (JsArg.num ((readUInt32BE buffer 4 : Nat) : Int),
        JsArg.num ((buffer.length : Int) - (saltBytes : Int) - 8),
        JsArg.undefined)

/-- Model of ScryptProcessor.compare (scrypt.js lines 157-194): decode the
record, then invoke crypto.scrypt with the slot values of
scryptCompareScryptArgs; if argument normalization ever succeeded the
re-derived key would be compared with the stored key for equality. -/
def scryptCompare (prim : ScryptPrim) (incoming stored : String) : Except JsError Bool :=
  match scryptCompareScryptArgs stored with
  | Except.error e => Except.error e
  | Except.ok args =>
    let buffer := bytesOfHexLenient stored
    let saltBytes := readUInt32BE buffer 0
    let salt := (buffer.drop 8).take saltBytes
    let hash := buffer.drop (saltBytes + 8)
    match nodeScryptNormalize args.1 args.2.1 args.2.2 with
    | Except.error e => Except.error e
    | Except.ok kn => Except.ok (prim incoming salt kn.1 kn.2 == hash)

/-- The four processor backends the factory can bind. -/
inductive Backend
  | pbkdf2
  | scrypt
  | bcrypt
  | argon2
deriving DecidableEq

/-- A JavaScript value the factory may hand back: the class constructor it
actually returns (methods live on the prototype and are reachable only on
constructed instances), or an instance of such a class, on which hash and
compare are directly invocable. -/
inductive JsProcessorValue
  | classValue (b : Backend)
  | instanceValue (b : Backend)
deriving DecidableEq

/-- Whether hash (equally compare) can be invoked directly on the value: a
class constructor object has no hash property of its own - instance
methods of a JS class live on the prototype - while a constructed instance
inherits it through the prototype chain. -/
def hasDirectHash : JsProcessorValue → Bool
  | JsProcessorValue.classValue _ => false
  | JsProcessorValue.instanceValue _ => true

/-- Evaluating new on the returned value: constructing a class yields an
instance bound to the same backend; an instance is not constructible. -/
def newInstance : JsProcessorValue → Option JsProcessorValue
  | JsProcessorValue.classValue b => some (JsProcessorValue.instanceValue b)
  | JsProcessorValue.instanceValue _ => none

/-- The enabled algorithm names, in object key order: Object.keys filtered
by truthiness of the flag (index.js lines 7-9). -/
def enabledNames (cfg : List (String × Bool)) : List String :=
  (cfg.filter fun kv => kv.2).map Prod.fst

/-- ASCII lowercasing of one character, the effect of
String.prototype.toLowerCase on the ASCII algorithm names concerned. -/
def charToLower (c : Char) : Char :=
  if 65 ≤ c.toNat ∧ c.toNat ≤ 90 then Char.ofNat (c.toNat + 32) else c

/-- Model of name.toLowerCase() as the factory applies it. -/
def strToLower (s : String) : String :=
  String.mk (s.data.map charToLower)

/-- The switch of index.js lines 17-40 on the lowercased name. -/
def backendOfName (name : String) : Option Backend :=
  if name = "argon2" then some Backend.argon2
  else if name = "bcrypt" then some Backend.bcrypt
  else if name = "pbkdf2" then some Backend.pbkdf2
  else if name = "scrypt" then some Backend.scrypt
  else none

/-- Model of the factory (index.js lines 6-41): more than one enabled name
throws; with none enabled, algorithm[0] is undefined and the
.toLowerCase() call throws a TypeError; otherwise the switch either
returns a fresh class extending the selected processor or throws the
unknown-algorithm error. -/
def factory (cfg : List (String × Bool)) : Except JsError JsProcessorValue :=
  let algorithm := enabledNames cfg
  if 1 < algorithm.length then Except.error JsError.moreThanOneAlgorithm
  else
    match algorithm.head? with
    | none => Except.error JsError.typeErrorUndefined
    | some name =>
      match backendOfName (strToLower name) with
      | some b => Except.ok (JsProcessorValue.classValue b)
      | none => Except.error JsError.unknownAlgorithm

/-- A concrete digest-sensitive stand-in for crypto.pbkdf2 used by the
witnesses: the derived key has the requested length and depends on the
salt, the iteration count and the digest name. -/
def toyKdf : KdfFn :=
  fun _ salt iterations keylen digest =>
    List.replicate keylen ((salt.length + iterations + digest.length) % 256)

/-- A concrete stand-in for the scrypt derivation used by the witnesses. -/
def toyScryptPrim : ScryptPrim :=
  fun _ salt keylen o =>
    List.replicate keylen ((salt.length + o.cost) % 256)

theorem hexDigitVal_hexDigitChar (n : Nat) (h : n < 16) :
    hexDigitVal (hexDigitChar n) = some n := by
  interval_cases n <;> decide

theorem parseHexPairs_hexOfBytes (bs : List Nat) (h : ∀ b ∈ bs, b < 256) :
    bytesOfHexLenient (hexOfBytes bs) = bs := by
  induction bs with
  | nil => rfl
  | cons b rest ih =>
    have hb : b < 256 := h b (List.mem_cons_self b rest)
    have hhi : b / 16 < 16 := by omega
    have hlo : b % 16 < 16 := by omega
    have hrest : ∀ x ∈ rest, x < 256 := fun x hx => h x (List.mem_cons_of_mem b hx)
    have ihr := ih hrest
    simp only [bytesOfHexLenient, hexOfBytes, List.flatMap_cons] at ihr ⊢
    simp only [List.append_eq, List.cons_append, List.nil_append, List.append_nil,
      parseHexPairs, hexDigitVal_hexDigitChar _ hhi, hexDigitVal_hexDigitChar _ hlo]
    rw [ihr]
    congr 1
    omega

theorem uint32be_length (v : Nat) : (uint32be v).length = 4 := rfl

theorem uint32be_lt (v : Nat) : ∀ b ∈ uint32be v, b < 256 := by
  intro b hb
  simp only [uint32be, List.mem_cons, List.not_mem_nil, or_false] at hb
  rcases hb with h | h | h | h <;> omega

theorem bytesOfHexLenient_encodeRecord (S K : List Nat) (C : Nat)
    (hS : ∀ b ∈ S, b < 256) (hK : ∀ b ∈ K, b < 256) :
    bytesOfHexLenient (encodeRecord S C K) =
      uint32be S.length ++ (uint32be C ++ (S ++ K)) := by
  apply parseHexPairs_hexOfBytes
  intro b hb
  rcases List.mem_append.mp hb with h | h
  · exact uint32be_lt _ b h
  rcases List.mem_append.mp h with h | h
  · exact uint32be_lt _ b h
  rcases List.mem_append.mp h with h | h
  · exact hS b h
  · exact hK b h

theorem readUInt32BE_front (v : Nat) (rest : List Nat) (h : v < 4294967296) :
    readUInt32BE (uint32be v ++ rest) 0 = v := by
  simp only [readUInt32BE, uint32be, List.append_eq, List.cons_append, List.nil_append, List.drop]
  omega

theorem readUInt32BE_second (a v : Nat) (rest : List Nat) (h : v < 4294967296) :
    readUInt32BE (uint32be a ++ (uint32be v ++ rest)) 4 = v := by
  simp only [readUInt32BE, uint32be, List.append_eq, List.cons_append, List.nil_append, List.drop]
  omega

theorem record_drop8 (a c : Nat) (rest : List Nat) :
    (uint32be a ++ (uint32be c ++ rest)).drop 8 = rest := by
  simp only [uint32be, List.append_eq, List.cons_append, List.nil_append, List.drop]

theorem record_salt (a c : Nat) (S K : List Nat) :
    ((uint32be a ++ (uint32be c ++ (S ++ K))).drop 8).take S.length = S := by
  rw [record_drop8]
  exact List.take_left S K

theorem record_key (a c : Nat) (S K : List Nat) :
    (uint32be a ++ (uint32be c ++ (S ++ K))).drop (S.length + 8) = K := by
  have h8 : S.length + 8 = 8 + S.length := by omega
  rw [h8, ← List.drop_drop, record_drop8]
  exact List.drop_left S K

theorem record_length (a c : Nat) (S K : List Nat) :
    (uint32be a ++ (uint32be c ++ (S ++ K))).length = 8 + (S.length + K.length) := by
  simp only [List.length_append, uint32be_length]
  omega

theorem pbkdf2Compare_encodeRecord (kdf : KdfFn) (incoming : String)
    (S K : List Nat) (C : Nat)
    (hS : ∀ b ∈ S, b < 256) (hK : ∀ b ∈ K, b < 256)
    (hSl : S.length < 4294967296) (hC : C < 4294967296)
    (hC1 : 1 ≤ C) (hC2 : C ≤ 2147483647) (hKl : K.length ≤ 2147483647) :
    pbkdf2Compare kdf incoming (encodeRecord S C K) =
      Except.ok (kdf incoming S C K.length pbkdf2Defaults.digest == K) := by
  have hbuf := bytesOfHexLenient_encodeRecord S K C hS hK
  simp only [pbkdf2Compare, hbuf, record_length, record_salt, record_key,
    readUInt32BE_front _ _ hSl, readUInt32BE_second _ _ _ hC]
  rw [if_neg (by omega), if_neg (by omega), if_neg (by omega), if_neg (by omega)]
  have ht : (((8 + (S.length + K.length) : Nat) : Int) - (S.length : Int) - 8).toNat
      = K.length := by omega
  rw [ht]

/-- Claim C2: for every salt S of 1 to 64 bytes, every derived key K of 1
to 128 bytes and every cost parameter C below 2^32, decoding the encoded
record (uint32be(len S), uint32be C, S, K, rendered as hex) recovers
exactly S, C and K: the big-endian uint32 at offset 0 is the salt length,
the one at offset 4 is C, the salt slice gives back S and the remainder
gives back K. -/
theorem claimC2_codec_roundtrip (S K : List Nat) (C : Nat)
    (hS : ∀ b ∈ S, b < 256) (hK : ∀ b ∈ K, b < 256)
    (hSlo : 1 ≤ S.length) (hShi : S.length ≤ 64)
    (hKlo : 1 ≤ K.length) (hKhi : K.length ≤ 128)
    (hC : C < 4294967296) :
    readUInt32BE (bytesOfHexLenient (encodeRecord S C K)) 0 = S.length ∧
    readUInt32BE (bytesOfHexLenient (encodeRecord S C K)) 4 = C ∧
    ((bytesOfHexLenient (encodeRecord S C K)).drop 8).take S.length = S ∧
    (bytesOfHexLenient (encodeRecord S C K)).drop (S.length + 8) = K := by
  rw [bytesOfHexLenient_encodeRecord S K C hS hK]
  exact ⟨readUInt32BE_front _ _ (by omega), readUInt32BE_second _ _ _ hC,
    record_salt _ _ _ _, record_key _ _ _ _⟩

theorem claimC2_codec_roundtrip_witness :
    (∀ b ∈ ([170] : List Nat), b < 256) ∧ (∀ b ∈ ([5, 6] : List Nat), b < 256) ∧
    (7 : Nat) < 4294967296 ∧
    (readUInt32BE (bytesOfHexLenient (encodeRecord [170] 7 [5, 6])) 0 = 1 ∧
     readUInt32BE (bytesOfHexLenient (encodeRecord [170] 7 [5, 6])) 4 = 7 ∧
     ((bytesOfHexLenient (encodeRecord [170] 7 [5, 6])).drop 8).take 1 = [170] ∧
     (bytesOfHexLenient (encodeRecord [170] 7 [5, 6])).drop (1 + 8) = [5, 6]) :=
  ⟨by decide, by decide, by decide,
   claimC2_codec_roundtrip [170] [5, 6] 7 (by decide) (by decide) (by decide)
     (by decide) (by decide) (by decide) (by decide)⟩

/-- Claim C9: for every well-formed stored record (a salt, a positive
int32 cost value and a derived key packed by the record layout) and every
incoming password whose re-derived key differs from the stored derived
key, PBKDF2 compare resolves false; the mismatch never surfaces as a
rejection or error. -/
theorem claimC9_mismatch_resolves_false (kdf : KdfFn) (incoming : String)
    (S K : List Nat) (C : Nat)
    (hS : ∀ b ∈ S, b < 256) (hK : ∀ b ∈ K, b < 256)
    (hSl : S.length < 4294967296) (hC1 : 1 ≤ C) (hC2 : C ≤ 2147483647)
    (hKl : K.length ≤ 2147483647)
    (hne : kdf incoming S C K.length pbkdf2Defaults.digest ≠ K) :
    pbkdf2Compare kdf incoming (encodeRecord S C K) = Except.ok false := by
  rw [pbkdf2Compare_encodeRecord kdf incoming S K C hS hK hSl (by omega) hC1 hC2 hKl,
    beq_eq_false_iff_ne.mpr hne]

theorem claimC9_mismatch_resolves_false_witness :
    (∀ b ∈ ([0] : List Nat), b < 256) ∧ (∀ b ∈ ([7] : List Nat), b < 256) ∧
    toyKdf "x" [0] 1 1 pbkdf2Defaults.digest ≠ [7] ∧
    pbkdf2Compare toyKdf "x" (encodeRecord [0] 1 [7]) = Except.ok false :=
  ⟨by decide, by decide, by decide,
   claimC9_mismatch_resolves_false toyKdf "x" [0] [7] 1 (by decide) (by decide)
     (by decide) (by decide) (by decide) (by decide) (by decide)⟩

/-- Claim C8: PBKDF2 compare always re-derives with the module-level
default digest, whatever digest the record was produced under, so a record
hashed with a non-default digest verifies false against the same correct
password whenever the two digests derive different keys.  The first
conjunct exhibits compare resolving exactly the equality of the
default-digest re-derivation with the stored key; the second is the false
verification. -/
theorem claimC8_default_digest_breaks_verification (kdf : KdfFn)
    (password : String) (salt : List Nat) (opts : Pbkdf2Options)
    (hs : ∀ b ∈ salt, b < 256) (hsl : salt.length < 4294967296)
    (hit1 : 1 ≤ opts.iterations) (hit2 : opts.iterations ≤ 2147483647)
    (hhb : opts.hashBytes ≤ 2147483647)
    (hkb : ∀ b ∈ kdf password salt opts.iterations opts.hashBytes opts.digest, b < 256)
    (hklen : (kdf password salt opts.iterations opts.hashBytes opts.digest).length
      = opts.hashBytes)
    (hne : kdf password salt opts.iterations opts.hashBytes pbkdf2Defaults.digest ≠
      kdf password salt opts.iterations opts.hashBytes opts.digest) :
    ∀ r, pbkdf2Hash kdf password salt opts = Except.ok r →
      pbkdf2Compare kdf password r = Except.ok false := by
  intro r hr
  unfold pbkdf2Hash at hr
  rw [if_neg (by omega), if_neg (by omega), if_neg (by omega)] at hr
  have hr' : r = encodeRecord salt opts.iterations
      (kdf password salt opts.iterations opts.hashBytes opts.digest) :=
    (Except.ok.injEq _ _).mp hr |>.symm
  rw [hr', pbkdf2Compare_encodeRecord kdf password salt _ opts.iterations hs hkb hsl
    (by omega) hit1 hit2 (by rw [hklen]; exact hhb), hklen,
    beq_eq_false_iff_ne.mpr hne]

theorem claimC8_default_digest_breaks_verification_witness :
    (∀ b ∈ ([1, 2] : List Nat), b < 256) ∧
    (toyKdf "pw" [1, 2] 3 2 "sha256").length = 2 ∧
    toyKdf "pw" [1, 2] 3 2 pbkdf2Defaults.digest ≠ toyKdf "pw" [1, 2] 3 2 "sha256" ∧
    pbkdf2Hash toyKdf "pw" [1, 2] ⟨2, 16, "sha256", 3⟩ =
      Except.ok (encodeRecord [1, 2] 3 (toyKdf "pw" [1, 2] 3 2 "sha256")) ∧
    pbkdf2Compare toyKdf "pw" (encodeRecord [1, 2] 3 (toyKdf "pw" [1, 2] 3 2 "sha256")) =
      Except.ok false :=
  ⟨by decide, by decide, by decide, by rfl,
   claimC8_default_digest_breaks_verification toyKdf "pw" [1, 2] ⟨2, 16, "sha256", 3⟩
     (by decide) (by decide) (by decide) (by decide) (by decide) (by decide)
     (by decide) (by decide) _ (by rfl)⟩

/-- Claim C4 counterexample: a processor constructed with iterations 1000
and then asked to hash with a per-call object that sets only saltBytes
does not fall back to the constructor iteration count - the effective
iterations are the built-in default 777777, refuting the claimed
per-call-over-constructor-over-defaults fallback chain. -/
theorem claimC4_counterexample :
    (pbkdf2EffectiveOptions (some ⟨none, none, none, some 1000⟩)
        (some ⟨none, some 8, none, none⟩)).iterations = 777777 ∧
    ¬(pbkdf2EffectiveOptions (some ⟨none, none, none, some 1000⟩)
        (some ⟨none, some 8, none, none⟩)).iterations = 1000 := by
  constructor <;> decide

/-- Claim C4 amended: in both KDF processors, when hash is given a
per-call options object the effective value of every option key is the
per-call value when present and otherwise the built-in default - the
constructor-time options are ignored entirely; constructor-time keys
override the defaults only when no per-call object is supplied.  The merge
is shallow in that each key is taken whole from the object that supplies
it. -/
theorem claimC4_amended (ctor : Option Pbkdf2Overrides) (o : Pbkdf2Overrides)
    (sctor : Option ScryptOverrides) (so : ScryptOverrides) :
    (pbkdf2EffectiveOptions ctor (some o)).hashBytes
        = o.hashBytes.getD pbkdf2Defaults.hashBytes ∧
    (pbkdf2EffectiveOptions ctor (some o)).saltBytes
        = o.saltBytes.getD pbkdf2Defaults.saltBytes ∧
    (pbkdf2EffectiveOptions ctor (some o)).digest
        = o.digest.getD pbkdf2Defaults.digest ∧
    (pbkdf2EffectiveOptions ctor (some o)).iterations
        = o.iterations.getD pbkdf2Defaults.iterations ∧
    pbkdf2EffectiveOptions ctor none = pbkdf2CtorOptions ctor ∧
    (scryptEffectiveOptions sctor (some so)).keyLength
        = so.keyLength.getD scryptDefaults.keyLength ∧
    (scryptEffectiveOptions sctor (some so)).saltBytes
        = so.saltBytes.getD scryptDefaults.saltBytes ∧
    (scryptEffectiveOptions sctor (some so)).cost
        = so.cost.getD scryptDefaults.cost ∧
    (scryptEffectiveOptions sctor (some so)).blockSize
        = so.blockSize.getD scryptDefaults.blockSize ∧
    (scryptEffectiveOptions sctor (some so)).parallelization
        = so.parallelization.getD scryptDefaults.parallelization ∧
    (scryptEffectiveOptions sctor (some so)).maxmem
        = so.maxmem.getD scryptDefaults.maxmem ∧
    scryptEffectiveOptions sctor none = scryptCtorOptions sctor :=
  ⟨rfl, rfl, rfl, rfl, rfl, rfl, rfl, rfl, rfl, rfl, rfl, rfl⟩

/-- Claim C5 counterexample: a stored string that is not valid hex
(trailing characters zz) still resolves a boolean in PBKDF2 compare,
because Buffer.from(stored, "hex") silently decodes the valid prefix
instead of failing; the claim that every non-hex string is rejected is
therefore false. -/
theorem claimC5_counterexample :
    isValidHex "0000000100000001aabbzz" = false ∧
    pbkdf2Compare toyKdf "x" "0000000100000001aabbzz" = Except.ok false := by
  exact ⟨by decide, by rfl⟩

/-- Claim C5 amended: PBKDF2 compare rejects every stored string whose
lenient hex decoding yields fewer than 8 bytes (the out-of-range uint32
read), and rejects every stored string whose recorded salt length
overflows the decoded buffer (the re-derivation is invoked with a
negative key length and its argument validation throws); but a string
that is not valid hex is not rejected for that reason alone, since the
decoder silently keeps the longest valid prefix. -/
theorem claimC5_amended (kdf : KdfFn) (incoming stored : String) :
    ((bytesOfHexLenient stored).length < 8 →
      pbkdf2Compare kdf incoming stored = Except.error JsError.outOfRangeRead) ∧
    (8 ≤ (bytesOfHexLenient stored).length →
      (bytesOfHexLenient stored).length < 8 + readUInt32BE (bytesOfHexLenient stored) 0 →
      ∃ e, pbkdf2Compare kdf incoming stored = Except.error e) := by
  constructor
  · intro h
    by_cases h4 : (bytesOfHexLenient stored).length < 4
    · simp only [pbkdf2Compare, if_pos h4]
    · simp only [pbkdf2Compare, if_neg h4, if_pos h]
  · intro h8 hov
    by_cases hit : readUInt32BE (bytesOfHexLenient stored) 4 < 1 ∨
        2147483647 < readUInt32BE (bytesOfHexLenient stored) 4
    · refine ⟨JsError.invalidIterations, ?_⟩
      simp only [pbkdf2Compare,
        if_neg (show ¬(bytesOfHexLenient stored).length < 4 by omega),
        if_neg (show ¬(bytesOfHexLenient stored).length < 8 by omega), if_pos hit]
    · refine ⟨JsError.invalidKeylen, ?_⟩
      have hkey : ((bytesOfHexLenient stored).length : Int)
          - (readUInt32BE (bytesOfHexLenient stored) 0 : Int) - 8 < 0 ∨
          (2147483647 : Int) < ((bytesOfHexLenient stored).length : Int)
          - (readUInt32BE (bytesOfHexLenient stored) 0 : Int) - 8 := by
        left
        omega
      simp only [pbkdf2Compare,
        if_neg (show ¬(bytesOfHexLenient stored).length < 4 by omega),
        if_neg (show ¬(bytesOfHexLenient stored).length < 8 by omega), if_neg hit,
        if_pos hkey]

theorem claimC5_amended_witness :
    (bytesOfHexLenient "0000").length < 8 ∧
    pbkdf2Compare toyKdf "x" "0000" = Except.error JsError.outOfRangeRead ∧
    8 ≤ (bytesOfHexLenient "0000000900000001aa").length ∧
    (bytesOfHexLenient "0000000900000001aa").length
      < 8 + readUInt32BE (bytesOfHexLenient "0000000900000001aa") 0 ∧
    ∃ e, pbkdf2Compare toyKdf "x" "0000000900000001aa" = Except.error e :=
  ⟨by decide, (claimC5_amended toyKdf "x" "0000").1 (by decide), by decide, by decide,
   (claimC5_amended toyKdf "x" "0000000900000001aa").2 (by decide) (by decide)⟩

/-- Claim C10: the scrypt hash result is independent of the maxmem option,
because the options object built for the derivation call carries only
cost, blockSize and parallelization - maxmem is never forwarded.  Two
calls identical except for maxmem produce equal resolved records. -/
theorem claimC10_maxmem_never_forwarded (prim : ScryptPrim) (password : String)
    (salt : List Nat) (opts : ScryptOptions) (m : Nat) :
    scryptHash prim password salt { opts with maxmem := m } =
      scryptHash prim password salt opts := rfl

/-- Claim C1 (the code defect): scrypt compare never resolves a boolean at
all, so compare(p, hash(p)) cannot resolve true for the scrypt backend.
Every invocation errors: the stored cost slot value lands in the keylen
slot of crypto.scrypt, the computed hash length (a number) lands in the
options slot, and defaults.digest - undefined, since the scrypt defaults
object has no digest key - lands in the callback slot, so Node shifts the
number into the callback position and rejects it as not a function.  The
second conjunct evaluates the full round trip at the default options on a
concrete password and salt. -/
theorem claimC1_scrypt_roundtrip_rejects :
    (∀ (prim : ScryptPrim) (incoming stored : String),
      ∃ e, scryptCompare prim incoming stored = Except.error e) ∧
    ∃ r, scryptHash toyScryptPrim "password" (List.replicate 16 0) scryptDefaults
        = Except.ok r ∧
      scryptCompare toyScryptPrim "password" r
        = Except.error JsError.callbackNotFunction := by
  constructor
  · intro prim incoming stored
    by_cases h4 : (bytesOfHexLenient stored).length < 4
    · exact ⟨JsError.outOfRangeRead, by
        simp only [scryptCompare, scryptCompareScryptArgs, if_pos h4]⟩
    by_cases h8 : (bytesOfHexLenient stored).length < 8
    · exact ⟨JsError.outOfRangeRead, by
        simp only [scryptCompare, scryptCompareScryptArgs, if_neg h4, if_pos h8]⟩
    by_cases hbig : ((readUInt32BE (bytesOfHexLenient stored) 4 : Nat) : Int) < 0 ∨
        (2147483647 : Int) < ((readUInt32BE (bytesOfHexLenient stored) 4 : Nat) : Int)
    · exact ⟨JsError.invalidKeylen, by
        simp only [scryptCompare, scryptCompareScryptArgs, if_neg h4, if_neg h8,
          nodeScryptNormalize, if_pos hbig]⟩
    · exact ⟨JsError.callbackNotFunction, by
        simp only [scryptCompare, scryptCompareScryptArgs, if_neg h4, if_neg h8,
          nodeScryptNormalize, if_neg hbig]⟩
  · exact ⟨_, rfl, by rfl⟩

/-- Claim C3: in the scrypt processor the uint32 written at byte offset 4
of the encoded record is the configured keyLength, and compare places the
value it reads back from offset 4 in the key-length-shaped third argument
slot of the crypto.scrypt re-derivation call (the options slot receives
the computed remaining length, a plain number, and the callback slot
receives undefined) - the stored value is never supplied as a cost
option. -/
theorem claimC3_keyLength_in_cost_slot (prim : ScryptPrim) (password : String)
    (salt : List Nat) (opts : ScryptOptions)
    (hs : ∀ b ∈ salt, b < 256) (hsl : salt.length < 4294967296)
    (hkl : opts.keyLength ≤ 2147483647)
    (hkb : ∀ b ∈ prim password salt opts.keyLength
      ⟨opts.cost, opts.blockSize, opts.parallelization⟩, b < 256) :
    ∀ r, scryptHash prim password salt opts = Except.ok r →
      readUInt32BE (bytesOfHexLenient r) 4 = opts.keyLength ∧
      scryptCompareScryptArgs r = Except.ok
        (JsArg.num (opts.keyLength : Int),
         JsArg.num ((prim password salt opts.keyLength
           ⟨opts.cost, opts.blockSize, opts.parallelization⟩).length : Int),
         JsArg.undefined) := by
  intro r hr
  have hnorm : nodeScryptNormalize (JsArg.num (opts.keyLength : Int))
      (JsArg.obj ⟨opts.cost, opts.blockSize, opts.parallelization⟩) JsArg.func =
      Except.ok (opts.keyLength, ⟨opts.cost, opts.blockSize, opts.parallelization⟩) := by
    simp only [nodeScryptNormalize]
    split
    · next h => exact absurd h (by omega)
    · simp
  have hhash : scryptHash prim password salt opts =
      (if 4294967295 < salt.length then Except.error JsError.outOfRangeWrite
       else Except.ok (encodeRecord salt opts.keyLength
         (prim password salt opts.keyLength
           ⟨opts.cost, opts.blockSize, opts.parallelization⟩))) := by
    unfold scryptHash
    rw [hnorm]
  rw [hhash, if_neg (show ¬4294967295 < salt.length by omega)] at hr
  have hr' : r = encodeRecord salt opts.keyLength
      (prim password salt opts.keyLength
        ⟨opts.cost, opts.blockSize, opts.parallelization⟩) :=
    ((Except.ok.injEq _ _).mp hr).symm
  subst hr'
  have hbuf := bytesOfHexLenient_encodeRecord salt
    (prim password salt opts.keyLength
      ⟨opts.cost, opts.blockSize, opts.parallelization⟩) opts.keyLength hs hkb
  constructor
  · rw [hbuf]
    exact readUInt32BE_second _ _ _ (by omega)
  · simp only [scryptCompareScryptArgs, hbuf, record_length,
      readUInt32BE_front _ _ hsl, readUInt32BE_second _ _ _
        (show opts.keyLength < 4294967296 by omega),
      if_neg (show ¬8 + (salt.length + (prim password salt opts.keyLength
        ⟨opts.cost, opts.blockSize, opts.parallelization⟩).length) < 4 by omega),
      if_neg (show ¬8 + (salt.length + (prim password salt opts.keyLength
        ⟨opts.cost, opts.blockSize, opts.parallelization⟩).length) < 8 by omega)]
    simp only [Except.ok.injEq, Prod.mk.injEq, JsArg.num.injEq]
    refine ⟨trivial, ?_, trivial⟩
    omega

theorem claimC3_keyLength_in_cost_slot_witness :
    (∀ b ∈ ([9, 9] : List Nat), b < 256) ∧
    (∀ b ∈ toyScryptPrim "pw" [9, 9] 64 ⟨16384, 8, 1⟩, b < 256) ∧
    (readUInt32BE (bytesOfHexLenient (encodeRecord [9, 9] 64
        (toyScryptPrim "pw" [9, 9] 64 ⟨16384, 8, 1⟩))) 4 = 64 ∧
      scryptCompareScryptArgs (encodeRecord [9, 9] 64
        (toyScryptPrim "pw" [9, 9] 64 ⟨16384, 8, 1⟩)) = Except.ok
        (JsArg.num ((64 : Nat) : Int), JsArg.num (((64 : Nat) : Nat) : Int),
         JsArg.undefined)) :=
  ⟨by decide, by decide,
   claimC3_keyLength_in_cost_slot toyScryptPrim "pw" [9, 9]
     ⟨64, 16, 16384, 8, 1, 33554432⟩ (by decide) (by decide) (by decide) (by decide)
     _ (by rfl)⟩

/-- Claim C6: every configuration with zero enabled algorithms, or two or
more enabled algorithms, or a single enabled name that matches none of
pbkdf2, scrypt, bcrypt, argon2 case-insensitively, makes the factory
throw instead of returning a processor.  The first case surfaces as the
TypeError from algorithm[0].toLowerCase() on undefined, the second as the
explicit more-than-one-algorithm throw, the third as the explicit
unknown-algorithm throw; these throws are what the specification taxonomy
labels ConfigurationError. -/
theorem claimC6_factory_rejects_bad_config (cfg : List (String × Bool)) :
    ((enabledNames cfg).length = 0 →
      factory cfg = Except.error JsError.typeErrorUndefined) ∧
    (2 ≤ (enabledNames cfg).length →
      factory cfg = Except.error JsError.moreThanOneAlgorithm) ∧
    (∀ name, enabledNames cfg = [name] → backendOfName (strToLower name) = none →
      factory cfg = Except.error JsError.unknownAlgorithm) := by
  refine ⟨?_, ?_, ?_⟩
  · intro h
    have h0 : enabledNames cfg = [] := List.length_eq_zero.mp h
    simp [factory, h0]
  · intro h
    simp only [factory]
    rw [if_pos (by omega)]
  · intro name h1 h2
    simp [factory, h1, h2]

theorem claimC6_factory_rejects_bad_config_witness :
    (enabledNames [("pbkdf2", false)]).length = 0 ∧
    factory [("pbkdf2", false)] = Except.error JsError.typeErrorUndefined ∧
    2 ≤ (enabledNames [("pbkdf2", true), ("bcrypt", true)]).length ∧
    factory [("pbkdf2", true), ("bcrypt", true)]
      = Except.error JsError.moreThanOneAlgorithm ∧
    enabledNames [("md5", true)] = ["md5"] ∧
    backendOfName (strToLower "md5") = none ∧
    factory [("md5", true)] = Except.error JsError.unknownAlgorithm :=
  ⟨by decide, (claimC6_factory_rejects_bad_config _).1 (by decide), by decide,
   (claimC6_factory_rejects_bad_config _).2.1 (by decide), by decide, by rfl,
   (claimC6_factory_rejects_bad_config _).2.2 "md5" (by decide) (by rfl)⟩

/-- Claim C7 counterexample: at the concrete configuration enabling only
pbkdf2, the factory returns the class constructor bound to the PBKDF2
backend, and hash cannot be invoked directly on that returned value -
instance methods of a JS class live on the prototype and require
construction with new first - refuting the claim that an instance with
directly invocable hash and compare is returned. -/
theorem claimC7_counterexample :
    factory [("pbkdf2", true)] = Except.ok (JsProcessorValue.classValue Backend.pbkdf2) ∧
    hasDirectHash (JsProcessorValue.classValue Backend.pbkdf2) = false := by
  exact ⟨by rfl, rfl⟩

/-- Claim C7 amended: for every configuration with exactly one enabled
algorithm whose name matches pbkdf2, scrypt, bcrypt or argon2 in any
letter case, the factory returns the processor class bound to that
backend; constructing it with new yields an instance on which hash and
compare can be invoked directly. -/
theorem claimC7_amended_factory_returns_class (cfg : List (String × Bool))
    (name : String) (b : Backend)
    (h1 : enabledNames cfg = [name]) (h2 : backendOfName (strToLower name) = some b) :
    factory cfg = Except.ok (JsProcessorValue.classValue b) ∧
    newInstance (JsProcessorValue.classValue b)
      = some (JsProcessorValue.instanceValue b) ∧
    hasDirectHash (JsProcessorValue.instanceValue b) = true := by
  refine ⟨?_, rfl, rfl⟩
  simp [factory, h1, h2]

theorem claimC7_amended_factory_returns_class_witness :
    enabledNames [("bcrypt", false), ("PBKDF2", true)] = ["PBKDF2"] ∧
    backendOfName (strToLower "PBKDF2") = some Backend.pbkdf2 ∧
    (factory [("bcrypt", false), ("PBKDF2", true)]
        = Except.ok (JsProcessorValue.classValue Backend.pbkdf2) ∧
      newInstance (JsProcessorValue.classValue Backend.pbkdf2)
        = some (JsProcessorValue.instanceValue Backend.pbkdf2) ∧
      hasDirectHash (JsProcessorValue.instanceValue Backend.pbkdf2) = true) :=
  ⟨by decide, by rfl,
   claimC7_amended_factory_returns_class [("bcrypt", false), ("PBKDF2", true)]
     "PBKDF2" Backend.pbkdf2 (by decide) (by rfl)⟩
